import Mathlib

set_option maxHeartbeats 1000000

/-!
Shallow embedding of the evolutionary driver of `gaudi/algorithms.py`:
the function `ea_mu_plus_lambda` and the checkpoint writer `dump_population`.

Modelling conventions:
* Python floats (probabilities, durations, speeds) are exact fractions
  (`PyFloat`, interpreted into the rationals by `PyFloat.toRat`); a Python
  `ZeroDivisionError` is the error branch of `safeDiv`.
* The wall-clock readings of `time()` are supplied by an `Env` oracle as the
  measured durations between the calls of the source code.
* The externally supplied DEAP toolbox (`varOr`, `evaluate`, `select`, the
  hall-of-fame `update`) is a record of functions; `varOr` and `evaluate`
  may raise, which mirrors the raise points the driver wraps in `try`.
* In-place mutation of individuals is made functional: evaluation returns the
  updated list.  The snapshot `population_ = population[:]` of line 86 aliases
  the very individual objects that generation-0 evaluation then mutates, so
  the model takes that snapshot after the generation-0 evaluation.
* The filesystem effect of `dump_population` is the returned `Manifest`
  value; whether a given periodic dump call raises is decided by the
  `dumpFails` oracle of the environment.  `individual.unexpress()` only
  reverts rendering side effects of the host application and carries no
  state observable by the driver, so the model gives it no field.
* The `stats` and `verbose` arguments only add presentation fields to the
  log records and are modelled as absent (`stats=None`), and the string
  formatting of progress and speed is presentation: records store the
  computed numbers.
-/

/-- Exact value of a Python float, as an integer fraction kept unnormalized
(every division the driver performs is guarded, so denominators stay
nonzero on the runs the theorems describe).  The represented rational value
is `toRat`; keeping the arithmetic structural lets concrete runs of the
model evaluate inside the kernel. -/
structure PyFloat where
  n : Int
  d : Int
deriving DecidableEq, Repr, Inhabited

namespace PyFloat

/-- The rational value represented by the fraction. -/
def toRat (a : PyFloat) : ℚ := (a.n : ℚ) / (a.d : ℚ)

/-- A float holding a natural number. -/
def ofNat (m : Nat) : PyFloat := ⟨m, 1⟩

/-- Addition of exact float values. -/
def add (a b : PyFloat) : PyFloat := ⟨a.n * b.d + b.n * a.d, a.d * b.d⟩

/-- Subtraction of exact float values. -/
def sub (a b : PyFloat) : PyFloat := ⟨a.n * b.d - b.n * a.d, a.d * b.d⟩

/-- Multiplication of exact float values. -/
def mul (a b : PyFloat) : PyFloat := ⟨a.n * b.n, a.d * b.d⟩

/-- Exact true division of float values (the divisor is checked for zero by
the caller). -/
def div (a b : PyFloat) : PyFloat := ⟨a.n * b.d, a.d * b.n⟩

/-- Whether the represented value is zero (the numerator vanishes). -/
def isZero (a : PyFloat) : Bool := a.n == 0

end PyFloat

/-- Fitness of an individual: the DEAP validity flag plus the objective
values; assigning `fitness.values` marks the fitness valid. -/
structure Fitness where
  valid : Bool
  values : List PyFloat
deriving DecidableEq, Repr, Inhabited

/-- An individual: an opaque genome identifier plus its fitness. -/
structure Individual where
  genome : Nat
  fitness : Fitness
deriving DecidableEq, Repr, Inhabited

/-- A Python exception: either a `ZeroDivisionError` or any other raised
exception (including the `AssertionError` of DEAP's `varOr` and a
`KeyboardInterrupt`), identified by its message. -/
inductive PyErr where
  | zeroDivision
  | raised (msg : String)
deriving DecidableEq, Repr

/-- The externally supplied operations the driver invokes.  `varOr` takes the
generation index to model the advancing random state of the real call. -/
structure Toolbox where
  varOr : Nat → List Individual → Except PyErr (List Individual)
  evaluate : Individual → Except PyErr (List PyFloat)
  select : List Individual → Nat → List Individual
  hofUpdate : List Individual → List Individual → List Individual

/-- One objective descriptor of the configuration: `name (module)`. -/
structure Objective where
  name : String
  module : String
deriving DecidableEq, Repr

/-- The `cfg.output` surface read by the driver. -/
structure OutputCfg where
  path : String
  name : String
  check_every : Nat
deriving DecidableEq, Repr

/-- The configuration surface read by the driver. -/
structure Cfg where
  output : OutputCfg
  objectives : List Objective
deriving DecidableEq, Repr

/-- The ambient world of one run: measured durations between the `time()`
calls (`initDur` for generation 0, `varDur g` and `evalDur g` for the two
timed phases of generation `g`), the oracle telling which periodic
`dump_population` calls raise, and the answer typed at the interruption
prompt. -/
structure Env where
  initDur : PyFloat
  varDur : Nat → PyFloat
  evalDur : Nat → PyFloat
  dumpFails : Nat → Bool
  answer : String

/-- One record of the logbook. -/
structure LogRecord where
  gen : Nat
  progress : PyFloat
  nevals : Nat
  speed : PyFloat
  eta : Int
deriving DecidableEq, Repr

/-- The manifest written by `dump_population`: the objective descriptors and
the mapping from artifact basename to fitness values, in insertion order. -/
structure Manifest where
  objectives : List String
  results : List (String × List PyFloat)
deriving DecidableEq, Repr

/-- The mutable state of the generational loop: the live population, the
snapshot `population_` of the last fully evaluated population, the optional
hall of fame, `performed_evals`, and the logbook. -/
structure EAState where
  pop : List Individual
  pop_ : List Individual
  hof : Option (List Individual)
  performed : Nat
  log : List LogRecord
deriving DecidableEq, Repr, Inhabited

/-- What the checkpoint block of one generation did: nothing due, a dump
call that raised (warning logged), or a written checkpoint. -/
inductive CheckDelta where
  | skip
  | failed (g : Nat)
  | written (g : Nat) (m : Manifest)
deriving DecidableEq, Repr

/-- How a run ends: the `return population_, logbook` of the source, the
`sys.exit('Ok, bye!')` of a declined prompt, or an uncaught exception
raised before the generational loop. -/
inductive RunResult where
  | returned (pop : List Individual) (log : List LogRecord)
  | exited (msg : String)
  | crashed (e : PyErr)
deriving DecidableEq, Repr

/-- A finished run: its result plus the generations at which a periodic
`dump_population` call was made and the checkpoints actually written. -/
structure RunOutcome where
  result : RunResult
  attempts : List Nat
  checkpoints : List (Nat × Manifest)
deriving DecidableEq, Repr

/-- All parameters of one run that stay fixed during the loop. -/
structure Params where
  tb : Toolbox
  mu : Nat
  lambda_ : Nat
  cxpb : PyFloat
  mutpb : PyFloat
  ngen : Nat
  cfg : Cfg
  env : Env

instance {ε α : Type} [DecidableEq ε] [DecidableEq α] :
    DecidableEq (Except ε α) := fun x y =>
  match x, y with
  | .error a, .error b =>
    if h : a = b then .isTrue (congrArg Except.error h)
    else .isFalse (fun hc => h (Except.error.inj hc))
  | .ok a, .ok b =>
    if h : a = b then .isTrue (congrArg Except.ok h)
    else .isFalse (fun hc => h (Except.ok.inj hc))
  | .error a, .ok b => .isFalse (fun hc => Except.noConfusion hc)
  | .ok a, .error b => .isFalse (fun hc => Except.noConfusion hc)

/-- Division as Python performs it: raising `ZeroDivisionError` on a zero
divisor (also for `0 / 0`). -/
def safeDiv (a b : PyFloat) : Except PyErr PyFloat :=
  if b.isZero then .error .zeroDivision else .ok (a.div b)

/-- Python's `int()` on an exact rational: truncation toward zero. -/
def pyInt (q : PyFloat) : Int := q.n.tdiv q.d

/-- The effect of `ind.fitness.values = fit`: the values are stored and the
fitness becomes valid. -/
def setFitness (ind : Individual) (v : List PyFloat) : Individual :=
  { ind with fitness := { valid := true, values := v } }

/-- Lines 91-94 / 122-125: evaluate exactly the individuals whose fitness is
invalid and write the results back aligned; the first raised exception
propagates.  Individuals with valid fitness pass through untouched. -/
def evaluatePop (tb : Toolbox) (pop : List Individual) :
    Except PyErr (List Individual) :=
  match pop with
  | [] => .ok []
  | ind :: rest =>
    if ind.fitness.valid then
      match evaluatePop tb rest with
      | .error e => .error e
      | .ok rest2 => .ok (ind :: rest2)
    else
      match tb.evaluate ind with
      | .error e => .error e
      | .ok v =>
        match evaluatePop tb rest with
        | .error e => .error e
        | .ok rest2 => .ok (setFitness ind v :: rest2)

/-- `len(invalid_ind)`: the number of individuals with invalid fitness. -/
def countInvalid (pop : List Individual) : Nat :=
  (pop.filter (fun ind => !ind.fitness.valid)).length

/-- Python's `str.lower()` applied to the prompt answer, mapping each
character to lowercase. -/
def pyLower (s : String) : String := String.mk (s.data.map Char.toLower)

/-- Line 151: the prompt answer confirms persisting results when
`answer.lower()` is in `('y', 'yes')`. -/
def confirmYes (env : Env) : Bool :=
  pyLower env.answer == "y" || pyLower env.answer == "yes"

/-- Line 104: `estimated_evals = (ngen + 1) * lambda_ * (cxpb + mutpb)`. -/
def estimatedEvals (p : Params) : PyFloat :=
  ((PyFloat.ofNat (p.ngen + 1)).mul (PyFloat.ofNat p.lambda_)).mul
    (p.cxpb.add p.mutpb)

/-- `os.path.basename`: the part of the path after the last slash. -/
def basename (s : String) : String :=
  String.mk ((s.data.reverse.takeWhile (fun c => c != '/')).reverse)

/-- The slash-free, index-specific local part of a written artifact name. -/
def tagName (i : Nat) : String :=
  "ind_" ++ String.mk (List.replicate i 'x')

/-- Modelled from the spec: the capability contract
`write(index, path) -> filename` of Individual.  The Individual class is not
part of the analysed source (only its use inside `dump_population` is); per
the spec, dumping n individuals must reference n distinct artifact files, so
the model returns a filename inside the target directory tagged with the
individual's index. -/
def Individual.write (ind : Individual) (i : Nat) (path : String) : String :=
  path ++ "/" ++ tagName i

/-- Assignment into the Python `results['GAUDI.results']` dict: replace the
value in place if the key exists, else append the pair. -/
def dictInsert (m : List (String × List PyFloat)) (k : String)
    (v : List PyFloat) : List (String × List PyFloat) :=
  if m.any (fun q => q.1 == k) then
    m.map (fun q => if q.1 == k then (k, v) else q)
  else m ++ [(k, v)]

/-- Lines 181-183: `for i, ind in enumerate(population)` — write each
individual and record its basename with its fitness values. -/
def dumpResultsGo (basepath : String) : Nat → List Individual →
    List (String × List PyFloat) → List (String × List PyFloat)
  | _, [], acc => acc
  | i, ind :: rest, acc =>
    dumpResultsGo basepath (i + 1) rest
      (dictInsert acc (basename (ind.write i basepath)) ind.fitness.values)

/-- Lines 170-188, `dump_population`: resolve the target directory (the
`mkdir` race is tolerated), write every individual, and produce the manifest
with the objective descriptors and the basename-to-fitness mapping.  The
header comment of the manifest file is presentation and not part of the
model. -/
def dump_population (population : List Individual) (cfg : Cfg)
    (subdir : Option String) : Manifest :=
  let basepath :=
    match subdir with
    | some d => cfg.output.path ++ "/" ++ d
    | none => cfg.output.path
  { objectives := cfg.objectives.map (fun obj => obj.name ++ " (" ++ obj.module ++ ")")
    results := dumpResultsGo basepath 0 population [] }

/-- Lines 116-145, the body of one generation `g` wrapped by `try`:
variation, evaluation of invalid offspring, hall-of-fame update, selection
back to `mu`, and the statistics record.  Any raise inside gives the error
branch. -/
def genBody (p : Params) (g : Nat) (s : EAState) : Except PyErr EAState :=
  match p.tb.varOr g s.pop with
  | .error e => .error e
  | .ok offspring =>
    match evaluatePop p.tb offspring with
    | .error e => .error e
    | .ok offspring2 =>
      match safeDiv (PyFloat.ofNat (countInvalid offspring)) (p.env.evalDur g) with
      | .error e => .error e
      | .ok evSpeed =>
        match safeDiv (PyFloat.ofNat (countInvalid offspring))
            ((p.env.varDur g).add (p.env.evalDur g)) with
        | .error e => .error e
        | .ok speed =>
          match safeDiv ((estimatedEvals p).sub
              (PyFloat.ofNat (s.performed + countInvalid offspring))) speed with
          | .error e => .error e
          | .ok etaQ =>
            .ok { s with
                  pop := p.tb.select (s.pop ++ offspring2) p.mu
                  hof := s.hof.map (fun h => p.tb.hofUpdate h offspring2)
                  performed := s.performed + countInvalid offspring
                  log := s.log ++ [{ gen := g
                                     progress := ((PyFloat.ofNat 100).mul
                                       (PyFloat.ofNat (g + 1))).div (PyFloat.ofNat (p.ngen + 1))
                                     nevals := countInvalid offspring
                                     speed := evSpeed
                                     eta := pyInt etaQ }] }

/-- Lines 159-167, the `else` clause of one generation: snapshot the fully
evaluated population into `population_`, and if a checkpoint is due
(`halloffame and cfg.output.check_every and not gen % cfg.output.check_every`)
call `dump_population`, downgrading a raise to a logged warning. -/
def stepGen (p : Params) (g : Nat) (s : EAState) :
    Except PyErr (EAState × CheckDelta) :=
  match genBody p g s with
  | .error e => .error e
  | .ok t0 =>
    if t0.hof.isSome && (p.cfg.output.check_every != 0)
        && (g % p.cfg.output.check_every == 0) then
      if p.env.dumpFails g then .ok ({ t0 with pop_ := t0.pop }, .failed g)
      else .ok ({ t0 with pop_ := t0.pop }, .written g
        (dump_population (t0.hof.getD []) p.cfg (some ("check" ++ Nat.repr g))))
    else .ok ({ t0 with pop_ := t0.pop }, .skip)

/-- The attempted dump calls contributed by one generation. -/
def deltaAttempts : CheckDelta → List Nat
  | .skip => []
  | .failed g => [g]
  | .written g _ => [g]

/-- The written checkpoints contributed by one generation. -/
def deltaWrites : CheckDelta → List (Nat × Manifest)
  | .skip => []
  | .failed _ => []
  | .written g m => [(g, m)]

/-- Lines 114-168: the generational loop `for gen in xrange(1, ngen + 1)`.
On an exception the interruption handler runs: a confirming answer reverts
side effects and breaks out, returning `population_` with the logbook; a
declining answer is `sys.exit('Ok, bye!')`. -/
def eaLoop (p : Params) : Nat → Nat → EAState → List Nat →
    List (Nat × Manifest) → RunOutcome
  | 0, _, s, att, cps => ⟨.returned s.pop_ s.log, att, cps⟩
  | fuel + 1, g, s, att, cps =>
    match stepGen p g s with
    | .ok (s2, d) =>
      eaLoop p fuel (g + 1) s2 (att ++ deltaAttempts d) (cps ++ deltaWrites d)
    | .error _ =>
      if confirmYes p.env then ⟨.returned s.pop_ s.log, att, cps⟩
      else ⟨.exited "Ok, bye!", att, cps⟩

/-- Lines 85-111: evaluate the initial population, update the hall of fame,
and record the generation-0 statistics.  Exceptions here are outside the
`try` of the loop and crash the run. -/
def initPhase (p : Params) (halloffame : Option (List Individual))
    (population : List Individual) : Except PyErr EAState :=
  match evaluatePop p.tb population with
  | .error e => .error e
  | .ok pop =>
    match safeDiv (PyFloat.ofNat (countInvalid population)) p.env.initDur with
    | .error e => .error e
    | .ok speed =>
      match safeDiv ((estimatedEvals p).sub
          (PyFloat.ofNat (countInvalid population))) speed with
      | .error e => .error e
      | .ok etaQ =>
        .ok { pop := pop
              pop_ := pop
              hof := halloffame.map (fun h => p.tb.hofUpdate h pop)
              performed := countInvalid population
              log := [{ gen := 0
                        progress := (PyFloat.ofNat 100).div (PyFloat.ofNat (p.ngen + 1))
                        nevals := countInvalid population
                        speed := speed
                        eta := pyInt etaQ }] }

/-- Lines 47-168: the driver `ea_mu_plus_lambda`. -/
def ea_mu_plus_lambda (population : List Individual) (toolbox : Toolbox)
    (mu lambda_ : Nat) (cxpb mutpb : PyFloat) (ngen : Nat) (cfg : Cfg)
    (halloffame : Option (List Individual)) (env : Env) : RunOutcome :=
  let p : Params := ⟨toolbox, mu, lambda_, cxpb, mutpb, ngen, cfg, env⟩
  match initPhase p halloffame population with
  | .error e => ⟨.crashed e, [], []⟩
  | .ok s0 => eaLoop p ngen 1 s0 [] []

/-- The driver applied to a bundled parameter record. -/
def runEA (p : Params) (hof0 : Option (List Individual))
    (pop0 : List Individual) : RunOutcome :=
  ea_mu_plus_lambda pop0 p.tb p.mu p.lambda_ p.cxpb p.mutpb p.ngen p.cfg hof0 p.env

/-- The state component of one generation step. -/
def stepSt (p : Params) (g : Nat) (s : EAState) : Except PyErr EAState :=
  match stepGen p g s with
  | .error e => .error e
  | .ok (s2, _) => .ok s2

/-- The state of the run after the initial phase and the bodies of
generations `1..k`, or the first raised exception. -/
def runTo (p : Params) (hof0 : Option (List Individual))
    (pop0 : List Individual) : Nat → Except PyErr EAState
  | 0 => initPhase p hof0 pop0
  | k + 1 =>
    match runTo p hof0 pop0 k with
    | .error e => .error e
    | .ok s => stepSt p (k + 1) s

/-- Iterating the state component of `stepGen` for `k` generations starting
at generation `g`. -/
def iterSteps (p : Params) : Nat → Nat → EAState → Except PyErr EAState
  | _, 0, s => .ok s
  | g, k + 1, s =>
    match stepGen p g s with
    | .error e => .error e
    | .ok (s2, _) => iterSteps p (g + 1) k s2

/-- The same run with a checkpoint-failure oracle that never fires. -/
def noFail (p : Params) : Params :=
  { p with env := { p.env with dumpFails := fun _ => false } }

/-! ### Basic inversion lemmas -/

theorem evaluatePop_length {tb : Toolbox} :
    ∀ {pop pop2 : List Individual}, evaluatePop tb pop = .ok pop2 →
      pop2.length = pop.length := by
  intro pop
  induction pop with
  | nil =>
    intro pop2 h
    unfold evaluatePop at h
    injection h with h2
    subst h2
    rfl
  | cons ind rest ih =>
    intro pop2 h
    unfold evaluatePop at h
    split at h
    · split at h
      · simp at h
      next rest2 hr =>
        injection h with h2
        subst h2
        simp [ih hr]
    · split at h
      · simp at h
      next v hv =>
        split at h
        · simp at h
        next rest2 hr =>
          injection h with h2
          subst h2
          simp [ih hr]

theorem evaluatePop_valid {tb : Toolbox} :
    ∀ {pop pop2 : List Individual}, evaluatePop tb pop = .ok pop2 →
      ∀ ind ∈ pop2, ind.fitness.valid = true := by
  intro pop
  induction pop with
  | nil =>
    intro pop2 h
    unfold evaluatePop at h
    injection h with h2
    subst h2
    intro ind hmem
    simp at hmem
  | cons ind rest ih =>
    intro pop2 h
    unfold evaluatePop at h
    split at h
    next hvalid =>
      split at h
      · simp at h
      next rest2 hr =>
        injection h with h2
        subst h2
        intro j hmem
        rcases List.mem_cons.mp hmem with h3 | h3
        · subst h3; exact hvalid
        · exact ih hr j h3
    · split at h
      · simp at h
      next v hv =>
        split at h
        · simp at h
        next rest2 hr =>
          injection h with h2
          subst h2
          intro j hmem
          rcases List.mem_cons.mp hmem with h3 | h3
          · subst h3; rfl
          · exact ih hr j h3

theorem genBody_ok {p : Params} {g : Nat} {s t : EAState}
    (h : genBody p g s = .ok t) :
    ∃ off off2 evS sp etaQ,
      p.tb.varOr g s.pop = .ok off ∧
      evaluatePop p.tb off = .ok off2 ∧
      safeDiv (PyFloat.ofNat (countInvalid off)) (p.env.evalDur g) = .ok evS ∧
      safeDiv (PyFloat.ofNat (countInvalid off))
        ((p.env.varDur g).add (p.env.evalDur g)) = .ok sp ∧
      safeDiv ((estimatedEvals p).sub
        (PyFloat.ofNat (s.performed + countInvalid off))) sp = .ok etaQ ∧
      t = { s with
            pop := p.tb.select (s.pop ++ off2) p.mu
            hof := s.hof.map (fun h2 => p.tb.hofUpdate h2 off2)
            performed := s.performed + countInvalid off
            log := s.log ++ [{ gen := g
                               progress := ((PyFloat.ofNat 100).mul
                                 (PyFloat.ofNat (g + 1))).div (PyFloat.ofNat (p.ngen + 1))
                               nevals := countInvalid off
                               speed := evS
                               eta := pyInt etaQ }] } := by
  unfold genBody at h
  split at h
  · simp at h
  next off hvar =>
    split at h
    · simp at h
    next off2 hev =>
      split at h
      · simp at h
      next evS hd1 =>
        split at h
        · simp at h
        next sp hd2 =>
          split at h
          · simp at h
          next etaQ hd3 =>
            injection h with h2
            exact ⟨off, off2, evS, sp, etaQ, hvar, hev, hd1, hd2, hd3, h2.symm⟩

theorem stepGen_ok {p : Params} {g : Nat} {s t : EAState} {d : CheckDelta}
    (h : stepGen p g s = .ok (t, d)) :
    ∃ t0, genBody p g s = .ok t0 ∧ t = { t0 with pop_ := t0.pop } ∧
      d = (if t.hof.isSome && (p.cfg.output.check_every != 0)
              && (g % p.cfg.output.check_every == 0) then
             (if p.env.dumpFails g then CheckDelta.failed g
              else CheckDelta.written g
                (dump_population (t.hof.getD []) p.cfg (some ("check" ++ Nat.repr g))))
           else CheckDelta.skip) := by
  unfold stepGen at h
  split at h
  · simp at h
  next t0 hbody =>
    refine ⟨t0, hbody, ?_⟩
    split at h
    next hdue =>
      split at h
      next hfail =>
        injection h with h2
        injection h2 with h3 h4
        subst h3
        simp [hdue, hfail, ← h4]
      next hfail =>
        injection h with h2
        injection h2 with h3 h4
        subst h3
        simp [hdue, hfail, ← h4]
    next hdue =>
      injection h with h2
      injection h2 with h3 h4
      subst h3
      simp [hdue, ← h4]

theorem stepSt_ok {p : Params} {g : Nat} {s s2 : EAState}
    (h : stepSt p g s = .ok s2) : ∃ d, stepGen p g s = .ok (s2, d) := by
  unfold stepSt at h
  split at h
  · simp at h
  next s3 d hsg =>
    injection h with h2
    subst h2
    exact ⟨d, hsg⟩

theorem runTo_succ {p : Params} {hof0 : Option (List Individual)}
    {pop0 : List Individual} {k : Nat} {s2 : EAState}
    (h : runTo p hof0 pop0 (k + 1) = .ok s2) :
    ∃ s, runTo p hof0 pop0 k = .ok s ∧ stepSt p (k + 1) s = .ok s2 := by
  unfold runTo at h
  split at h
  · simp at h
  next s hs => exact ⟨s, hs, h⟩

theorem initPhase_ok {p : Params} {hof0 : Option (List Individual)}
    {pop0 : List Individual} {s : EAState}
    (h : initPhase p hof0 pop0 = .ok s) :
    ∃ pop speed etaQ,
      evaluatePop p.tb pop0 = .ok pop ∧
      safeDiv (PyFloat.ofNat (countInvalid pop0)) p.env.initDur = .ok speed ∧
      safeDiv ((estimatedEvals p).sub
        (PyFloat.ofNat (countInvalid pop0))) speed = .ok etaQ ∧
      s = { pop := pop
            pop_ := pop
            hof := hof0.map (fun h2 => p.tb.hofUpdate h2 pop)
            performed := countInvalid pop0
            log := [{ gen := 0
                      progress := (PyFloat.ofNat 100).div (PyFloat.ofNat (p.ngen + 1))
                      nevals := countInvalid pop0
                      speed := speed
                      eta := pyInt etaQ }] } := by
  unfold initPhase at h
  split at h
  · simp at h
  next pop hev =>
    split at h
    · simp at h
    next speed hd1 =>
      split at h
      · simp at h
      next etaQ hd2 =>
        injection h with h2
        exact ⟨pop, speed, etaQ, hev, hd1, hd2, h2.symm⟩

theorem PyFloat.toRat_div_ofNat (a b : Nat) :
    ((PyFloat.ofNat a).div (PyFloat.ofNat b)).toRat = (a : ℚ) / (b : ℚ) := by
  simp [PyFloat.div, PyFloat.ofNat, PyFloat.toRat]

theorem PyFloat.toRat_mul_div_ofNat (a b c : Nat) :
    (((PyFloat.ofNat a).mul (PyFloat.ofNat b)).div (PyFloat.ofNat c)).toRat
      = (a : ℚ) * (b : ℚ) / (c : ℚ) := by
  simp only [PyFloat.mul, PyFloat.div, PyFloat.ofNat, PyFloat.toRat]
  push_cast
  ring

/-- Invariants of the reachable run states: the snapshot equals the live
population, the presence of the hall of fame is stable, the logbook holds
one record per completed generation, and record `j` carries generation
index `j` with the progress formula of the source. -/
theorem runTo_inv {p : Params} {hof0 : Option (List Individual)}
    {pop0 : List Individual} :
    ∀ {k : Nat} {s : EAState}, runTo p hof0 pop0 k = .ok s →
      s.pop_ = s.pop ∧ s.hof.isSome = hof0.isSome ∧ s.log.length = k + 1 ∧
      (∀ (j : Nat) (r : LogRecord), s.log[j]? = some r → r.gen = j ∧
        r.progress.toRat = 100 * ((j : ℚ) + 1) / ((p.ngen : ℚ) + 1)) := by
  intro k
  induction k with
  | zero =>
    intro s h
    obtain ⟨pop, speed, etaQ, hev, hd1, hd2, hs⟩ := initPhase_ok h
    subst hs
    refine ⟨rfl, by cases hof0 <;> simp, rfl, ?_⟩
    intro j r hr
    dsimp only at hr
    obtain ⟨hbound, hval⟩ := List.getElem?_eq_some.mp hr
    simp only [List.length_singleton] at hbound
    have hj : j = 0 := by omega
    subst hj
    simp only [List.getElem_singleton] at hval
    subst hval
    refine ⟨rfl, ?_⟩
    show ((PyFloat.ofNat 100).div (PyFloat.ofNat (p.ngen + 1))).toRat = _
    rw [PyFloat.toRat_div_ofNat]
    push_cast
    norm_num
  | succ k ih =>
    intro s h
    obtain ⟨s1, hs1, hstep⟩ := runTo_succ h
    obtain ⟨d, hsg⟩ := stepSt_ok hstep
    obtain ⟨t0, hbody, ht, hd⟩ := stepGen_ok hsg
    obtain ⟨off, off2, evS, sp, etaQ, hvar, hev2, hq1, hq2, hq3, ht0⟩ := genBody_ok hbody
    obtain ⟨hp_, hh, hlen, hget⟩ := ih hs1
    subst ht
    subst ht0
    refine ⟨rfl, ?_, ?_, ?_⟩
    · cases hs1h : s1.hof <;> rw [hs1h] at hh <;> simpa using hh
    · simpa using hlen
    · intro j r hr
      dsimp only at hr
      by_cases hj : j < s1.log.length
      · rw [List.getElem?_append_left hj] at hr
        exact hget j r hr
      · push_neg at hj
        rw [List.getElem?_append_right hj] at hr
        have hbound : j - s1.log.length < 1 := by
          have h2 := (List.getElem?_eq_some.mp hr).1
          simpa using h2
        have hz : j - s1.log.length = 0 := by omega
        rw [hz] at hr
        simp only [List.getElem?_cons_zero, Option.some.injEq] at hr
        have hj2 : j = k + 1 := by omega
        subst hj2
        subst hr
        refine ⟨rfl, ?_⟩
        show (((PyFloat.ofNat 100).mul (PyFloat.ofNat (k + 1 + 1))).div
          (PyFloat.ofNat (p.ngen + 1))).toRat = _
        rw [PyFloat.toRat_mul_div_ofNat]
        push_cast
        ring

/-- Under the contract that `select` returns exactly the requested number of
individuals, the population keeps size `mu` at every reachable state. -/
theorem runTo_size {p : Params} {hof0 : Option (List Individual)}
    {pop0 : List Individual}
    (hsel : ∀ pool k2, (p.tb.select pool k2).length = k2)
    (hpop : pop0.length = p.mu) :
    ∀ {k : Nat} {s : EAState}, runTo p hof0 pop0 k = .ok s →
      s.pop.length = p.mu := by
  intro k
  induction k with
  | zero =>
    intro s h
    obtain ⟨pop, speed, etaQ, hev, hd1, hd2, hs⟩ := initPhase_ok h
    subst hs
    show pop.length = p.mu
    rw [evaluatePop_length hev]
    exact hpop
  | succ k ih =>
    intro s h
    obtain ⟨s1, hs1, hstep⟩ := runTo_succ h
    obtain ⟨d, hsg⟩ := stepSt_ok hstep
    obtain ⟨t0, hbody, ht, hd⟩ := stepGen_ok hsg
    obtain ⟨off, off2, evS, sp, etaQ, hvar, hev2, hq1, hq2, hq3, ht0⟩ := genBody_ok hbody
    subst ht
    subst ht0
    exact hsel _ _

/-- Under the contract that `select` picks from its candidate pool, every
individual of a reachable population has valid fitness. -/
theorem runTo_valid {p : Params} {hof0 : Option (List Individual)}
    {pop0 : List Individual}
    (hmem : ∀ pool k2 ind, ind ∈ p.tb.select pool k2 → ind ∈ pool) :
    ∀ {k : Nat} {s : EAState}, runTo p hof0 pop0 k = .ok s →
      ∀ ind ∈ s.pop, ind.fitness.valid = true := by
  intro k
  induction k with
  | zero =>
    intro s h
    obtain ⟨pop, speed, etaQ, hev, hd1, hd2, hs⟩ := initPhase_ok h
    subst hs
    exact evaluatePop_valid hev
  | succ k ih =>
    intro s h
    obtain ⟨s1, hs1, hstep⟩ := runTo_succ h
    obtain ⟨d, hsg⟩ := stepSt_ok hstep
    obtain ⟨t0, hbody, ht, hd⟩ := stepGen_ok hsg
    obtain ⟨off, off2, evS, sp, etaQ, hvar, hev2, hq1, hq2, hq3, ht0⟩ := genBody_ok hbody
    subst ht
    subst ht0
    intro ind hind
    have hpool := hmem _ _ _ hind
    rcases List.mem_append.mp hpool with h1 | h1
    · exact ih hs1 ind h1
    · exact evaluatePop_valid hev2 ind h1

theorem iterSteps_snoc (p : Params) :
    ∀ (k g : Nat) (s : EAState),
      iterSteps p g (k + 1) s =
        Except.bind (iterSteps p g k s) (stepSt p (g + k)) := by
  intro k
  induction k with
  | zero =>
    intro g s
    show iterSteps p g 1 s = Except.bind (.ok s) (stepSt p (g + 0))
    cases hsg : stepGen p g s with
    | error e => simp [iterSteps, stepSt, hsg, Except.bind]
    | ok pr =>
      obtain ⟨s2, d⟩ := pr
      simp [iterSteps, stepSt, hsg, Except.bind]
  | succ k ih =>
    intro g s
    cases hsg : stepGen p g s with
    | error e =>
      simp [iterSteps, hsg, Except.bind]
    | ok pr =>
      obtain ⟨s2, d⟩ := pr
      have h1 : iterSteps p g (k + 1 + 1) s = iterSteps p (g + 1) (k + 1) s2 := by
        simp [iterSteps, hsg]
      have h2 : iterSteps p g (k + 1) s = iterSteps p (g + 1) k s2 := by
        simp [iterSteps, hsg]
      rw [h1, ih (g + 1) s2, h2]
      have h3 : g + 1 + k = g + (k + 1) := by omega
      rw [h3]

theorem runTo_eq_iter (p : Params) (hof0 : Option (List Individual))
    (pop0 : List Individual) :
    ∀ (k : Nat), runTo p hof0 pop0 k =
      Except.bind (initPhase p hof0 pop0) (iterSteps p 1 k) := by
  intro k
  induction k with
  | zero =>
    cases hin : initPhase p hof0 pop0 with
    | error e => simp [runTo, hin, Except.bind]
    | ok s0 => simp [runTo, hin, Except.bind, iterSteps]
  | succ k ih =>
    have h1 : runTo p hof0 pop0 (k + 1) =
        Except.bind (runTo p hof0 pop0 k) (stepSt p (k + 1)) := by
      cases hr : runTo p hof0 pop0 k with
      | error e => simp [runTo, hr, Except.bind]
      | ok s => simp [runTo, hr, Except.bind]
    rw [h1, ih]
    cases hin : initPhase p hof0 pop0 with
    | error e => simp [Except.bind]
    | ok s0 =>
      simp only [Except.bind]
      rw [iterSteps_snoc]
      have h3 : 1 + k = k + 1 := by omega
      rw [h3]
      rfl

theorem runTo_split {p : Params} {hof0 : Option (List Individual)}
    {pop0 : List Individual} {k : Nat} {s : EAState}
    (h : runTo p hof0 pop0 k = .ok s) :
    ∃ s0, initPhase p hof0 pop0 = .ok s0 ∧ iterSteps p 1 k s0 = .ok s := by
  rw [runTo_eq_iter] at h
  cases hin : initPhase p hof0 pop0 with
  | error e => rw [hin] at h; simp [Except.bind] at h
  | ok s0 =>
    rw [hin] at h
    exact ⟨s0, rfl, h⟩

/-- A run whose generations `g .. g+fuel-1` all succeed ends with
`return population_, logbook`. -/
theorem eaLoop_result_complete (p : Params) :
    ∀ {fuel g : Nat} {s s2 : EAState} {att : List Nat}
      {cps : List (Nat × Manifest)},
      iterSteps p g fuel s = .ok s2 →
      (eaLoop p fuel g s att cps).result = .returned s2.pop_ s2.log := by
  intro fuel
  induction fuel with
  | zero =>
    intro g s s2 att cps h
    unfold iterSteps at h
    injection h with h2
    subst h2
    rfl
  | succ fuel ih =>
    intro g s s2 att cps h
    unfold iterSteps at h
    split at h
    · simp at h
    next s3 d hsg =>
      show (eaLoop p (fuel + 1) g s att cps).result = _
      unfold eaLoop
      rw [hsg]
      exact ih h

/-- A run whose first raise happens in the body of generation `g+k`
(`k < fuel`) ends through the interruption handler: the prompt decides
between returning the snapshot and `sys.exit`. -/
theorem eaLoop_result_interrupt (p : Params) :
    ∀ {k fuel g : Nat} {s s2 : EAState} {att : List Nat}
      {cps : List (Nat × Manifest)} {e : PyErr},
      k < fuel → iterSteps p g k s = .ok s2 →
      stepGen p (g + k) s2 = .error e →
      (eaLoop p fuel g s att cps).result =
        (if confirmYes p.env then .returned s2.pop_ s2.log
         else .exited "Ok, bye!") := by
  intro k
  induction k with
  | zero =>
    intro fuel g s s2 att cps e hk hiter herr
    unfold iterSteps at hiter
    injection hiter with h2
    subst h2
    rw [Nat.add_zero] at herr
    cases fuel with
    | zero => omega
    | succ fuel =>
      unfold eaLoop
      rw [herr]
      by_cases hc : confirmYes p.env = true <;> simp [hc]
  | succ k ih =>
    intro fuel g s s2 att cps e hk hiter herr
    unfold iterSteps at hiter
    split at hiter
    · simp at hiter
    next s3 d hsg =>
      cases fuel with
      | zero => omega
      | succ fuel =>
        have hk2 : k < fuel := by omega
        have herr2 : stepGen p (g + 1 + k) s2 = .error e := by
          have h3 : g + 1 + k = g + (k + 1) := by omega
          rw [h3]
          exact herr
        unfold eaLoop
        rw [hsg]
        exact ih hk2 hiter herr2

/-- The hall of fame stays present across a step, and the dump calls of a
step are exactly the generations at which the checkpoint condition of
line 163 holds. -/
theorem stepGen_hof_delta {p : Params} {g : Nat} {s t : EAState}
    {d : CheckDelta} (h : stepGen p g s = .ok (t, d)) :
    t.hof.isSome = s.hof.isSome ∧
    deltaAttempts d =
      (if s.hof.isSome && (p.cfg.output.check_every != 0)
          && (g % p.cfg.output.check_every == 0) then [g] else []) := by
  obtain ⟨t0, hbody, ht, hd⟩ := stepGen_ok h
  obtain ⟨off, off2, evS, sp, etaQ, hvar, hev2, hq1, hq2, hq3, ht0⟩ := genBody_ok hbody
  subst ht
  subst ht0
  have hhof : (s.hof.map (fun h2 => p.tb.hofUpdate h2 off2)).isSome = s.hof.isSome := by
    cases s.hof <;> rfl
  refine ⟨hhof, ?_⟩
  rw [hd]
  by_cases hf : p.env.dumpFails g = true <;>
    by_cases hc : (s.hof.isSome && (p.cfg.output.check_every != 0)
      && (g % p.cfg.output.check_every == 0)) = true <;>
    simp [hhof, hc, hf, deltaAttempts]

/-- In a run whose generations all succeed, the dump calls are exactly the
generations in range at which the checkpoint condition holds. -/
theorem eaLoop_attempts_complete (p : Params) (b : Bool) :
    ∀ {fuel g : Nat} {s s2 : EAState} {att : List Nat}
      {cps : List (Nat × Manifest)},
      s.hof.isSome = b →
      iterSteps p g fuel s = .ok s2 →
      (eaLoop p fuel g s att cps).attempts =
        att ++ (List.range' g fuel).filter
          (fun j => b && (p.cfg.output.check_every != 0)
            && (j % p.cfg.output.check_every == 0)) := by
  intro fuel
  induction fuel with
  | zero =>
    intro g s s2 att cps hb h
    simp [eaLoop, List.range']
  | succ fuel ih =>
    intro g s s2 att cps hb h
    unfold iterSteps at h
    split at h
    · simp at h
    next s3 d hsg =>
      obtain ⟨hhof, hdelta⟩ := stepGen_hof_delta hsg
      unfold eaLoop
      rw [hsg]
      rw [ih (hhof.trans hb) h]
      rw [hdelta, hb]
      have hrange : List.range' g (fuel + 1) = g :: List.range' (g + 1) fuel :=
        List.range'_succ g fuel 1
      rw [hrange]
      by_cases hb2 : b = true <;>
        by_cases hce : p.cfg.output.check_every = 0 <;>
        by_cases hg : g % p.cfg.output.check_every = 0 <;>
        simp [hb2, hce, hg, List.filter_cons]

theorem ea_eq (p : Params) (hof0 : Option (List Individual))
    (pop0 : List Individual) :
    ea_mu_plus_lambda pop0 p.tb p.mu p.lambda_ p.cxpb p.mutpb p.ngen p.cfg
        hof0 p.env =
      match initPhase p hof0 pop0 with
      | .error e => ⟨.crashed e, [], []⟩
      | .ok s0 => eaLoop p p.ngen 1 s0 [] [] := rfl

theorem genBody_noFail (p : Params) (g : Nat) (s : EAState) :
    genBody (noFail p) g s = genBody p g s := rfl

theorem initPhase_noFail (p : Params) (hof0 : Option (List Individual))
    (pop0 : List Individual) :
    initPhase (noFail p) hof0 pop0 = initPhase p hof0 pop0 := rfl

theorem confirmYes_noFail (p : Params) :
    confirmYes (noFail p).env = confirmYes p.env := rfl

/-- The never-failing run takes the same states; its checkpoint block writes
wherever a checkpoint is due. -/
theorem stepGen_noFail (p : Params) (g : Nat) (s : EAState) :
    stepGen (noFail p) g s =
      match stepGen p g s with
      | .error e => .error e
      | .ok (t, _) =>
        .ok (t, if t.hof.isSome && (p.cfg.output.check_every != 0)
                    && (g % p.cfg.output.check_every == 0) then
                  CheckDelta.written g (dump_population (t.hof.getD []) p.cfg
                    (some ("check" ++ Nat.repr g)))
                else CheckDelta.skip) := by
  unfold stepGen
  rw [genBody_noFail]
  cases hb : genBody p g s with
  | error e => rfl
  | ok t0 =>
    by_cases hc : (t0.hof.isSome && (p.cfg.output.check_every != 0)
        && (g % p.cfg.output.check_every == 0)) = true
    · by_cases hf : p.env.dumpFails g = true <;> simp [hc, hf, noFail]
    · simp [hc, noFail]

/-- A raised periodic checkpoint write never changes the control flow, the
states, or the dump schedule of the run: compared with a run whose
checkpoint writes all succeed, only the checkpoints that failed are
missing. -/
theorem eaLoop_noFail (p : Params) :
    ∀ (fuel g : Nat) (s : EAState) (att : List Nat)
      (cps0 : List (Nat × Manifest)),
      (eaLoop p fuel g s att
          (cps0.filter (fun pr => !(p.env.dumpFails pr.1)))).result
        = (eaLoop (noFail p) fuel g s att cps0).result ∧
      (eaLoop p fuel g s att
          (cps0.filter (fun pr => !(p.env.dumpFails pr.1)))).attempts
        = (eaLoop (noFail p) fuel g s att cps0).attempts ∧
      (eaLoop p fuel g s att
          (cps0.filter (fun pr => !(p.env.dumpFails pr.1)))).checkpoints
        = (eaLoop (noFail p) fuel g s att cps0).checkpoints.filter
            (fun pr => !(p.env.dumpFails pr.1)) := by
  intro fuel
  induction fuel with
  | zero =>
    intro g s att cps0
    exact ⟨rfl, rfl, rfl⟩
  | succ fuel ih =>
    intro g s att cps0
    have hnf := stepGen_noFail p g s
    cases hsg : stepGen p g s with
    | error e =>
      rw [hsg] at hnf
      unfold eaLoop
      rw [hsg, hnf, confirmYes_noFail]
      by_cases hcf : confirmYes p.env = true <;> simp [hcf]
    | ok pr =>
      obtain ⟨t, d⟩ := pr
      rw [hsg] at hnf
      obtain ⟨t0, hbody, ht, hd⟩ := stepGen_ok hsg
      unfold eaLoop
      rw [hsg, hnf]
      dsimp only
      have hatt : deltaAttempts d =
          deltaAttempts (if t.hof.isSome && (p.cfg.output.check_every != 0)
              && (g % p.cfg.output.check_every == 0) then
            CheckDelta.written g (dump_population (t.hof.getD []) p.cfg
              (some ("check" ++ Nat.repr g)))
          else CheckDelta.skip) := by
        rw [hd]
        by_cases hc : (t.hof.isSome && (p.cfg.output.check_every != 0)
            && (g % p.cfg.output.check_every == 0)) = true <;>
          by_cases hf : p.env.dumpFails g = true <;>
          simp [hc, hf, deltaAttempts]
      have hwr : deltaWrites d =
          (deltaWrites (if t.hof.isSome && (p.cfg.output.check_every != 0)
              && (g % p.cfg.output.check_every == 0) then
            CheckDelta.written g (dump_population (t.hof.getD []) p.cfg
              (some ("check" ++ Nat.repr g)))
          else CheckDelta.skip)).filter (fun pr => !(p.env.dumpFails pr.1)) := by
        rw [hd]
        by_cases hc : (t.hof.isSome && (p.cfg.output.check_every != 0)
            && (g % p.cfg.output.check_every == 0)) = true <;>
          by_cases hf : p.env.dumpFails g = true <;>
          simp [hc, hf, deltaWrites]
      rw [hatt, hwr, ← List.filter_append]
      exact ih (g + 1) t _ _

/-! ### Lemmas about `dump_population` -/

theorem string_data_append (a b : String) : (a ++ b).data = a.data ++ b.data := rfl

theorem tagName_data (i : Nat) :
    (tagName i).data = "ind_".data ++ List.replicate i 'x' := rfl

theorem tagName_data_length (i : Nat) : (tagName i).data.length = 4 + i := by
  rw [tagName_data, List.length_append, List.length_replicate]
  norm_num

theorem tagName_injective : Function.Injective tagName := by
  intro a b h
  have h2 : (tagName a).data.length = (tagName b).data.length := by rw [h]
  rw [tagName_data_length, tagName_data_length] at h2
  omega

theorem tagName_no_slash (i : Nat) : ∀ c ∈ (tagName i).data, c ≠ '/' := by
  intro c hc
  rw [tagName_data] at hc
  rcases List.mem_append.mp hc with h1 | h1
  · fin_cases h1 <;> decide
  · rw [List.eq_of_mem_replicate h1]
    decide

theorem takeWhile_stop :
    ∀ (l1 l2 : List Char), (∀ c ∈ l1, c ≠ '/') →
      ((l1 ++ '/' :: l2).takeWhile (fun c => c != '/')) = l1 := by
  intro l1
  induction l1 with
  | nil =>
    intro l2 hall
    simp [List.takeWhile]
  | cons a l1 ih =>
    intro l2 hall
    have ha : a ≠ '/' := hall a (List.mem_cons_self a l1)
    have ha2 : (a != '/') = true := by simpa using ha
    simp only [List.cons_append, List.takeWhile_cons, ha2]
    rw [ih l2 (fun c hc => hall c (List.mem_cons_of_mem a hc))]
    simp

theorem basename_write (ind : Individual) (i : Nat) (path : String) :
    basename (ind.write i path) = tagName i := by
  show String.mk (((path ++ "/" ++ tagName i).data.reverse.takeWhile
      (fun c => c != '/')).reverse) = tagName i
  have hdata : (path ++ "/" ++ tagName i).data
      = path.data ++ '/' :: (tagName i).data := by
    rw [string_data_append, string_data_append]
    simp
  rw [hdata]
  have hrev : (path.data ++ '/' :: (tagName i).data).reverse
      = (tagName i).data.reverse ++ '/' :: path.data.reverse := by
    rw [List.reverse_append]
    simp
  rw [hrev]
  rw [takeWhile_stop _ _ (fun c hc => tagName_no_slash i c (List.mem_reverse.mp hc))]
  rw [List.reverse_reverse]

theorem dictInsert_fresh {m : List (String × List PyFloat)} {k : String}
    (v : List PyFloat) (hfresh : ∀ q ∈ m, q.1 ≠ k) :
    dictInsert m k v = m ++ [(k, v)] := by
  unfold dictInsert
  have hany : m.any (fun q => q.1 == k) = false := by
    rw [List.any_eq_false]
    intro q hq
    simpa using hfresh q hq
  rw [hany]
  simp

/-- The enumeration loop of `dump_population` appends one entry with a fresh
index-tagged key per individual. -/
theorem dumpResultsGo_spec (bp : String) :
    ∀ (pop : List Individual) (i : Nat) (acc : List (String × List PyFloat)),
      (∀ q ∈ acc, ∀ j, i ≤ j → q.1 ≠ tagName j) →
      (dumpResultsGo bp i pop acc).length = acc.length + pop.length ∧
      (dumpResultsGo bp i pop acc).map Prod.fst
        = acc.map Prod.fst ++ (List.range' i pop.length).map tagName := by
  intro pop
  induction pop with
  | nil =>
    intro i acc hfresh
    simp [dumpResultsGo]
  | cons ind rest ih =>
    intro i acc hfresh
    have hkey : basename (ind.write i bp) = tagName i := basename_write ind i bp
    have hins : dictInsert acc (basename (ind.write i bp)) ind.fitness.values
        = acc ++ [(tagName i, ind.fitness.values)] := by
      rw [hkey]
      exact dictInsert_fresh _ (fun q hq => hfresh q hq i (Nat.le_refl i))
    have hfresh2 : ∀ q ∈ acc ++ [(tagName i, ind.fitness.values)],
        ∀ j, i + 1 ≤ j → q.1 ≠ tagName j := by
      intro q hq j hij
      rcases List.mem_append.mp hq with h1 | h1
      · exact hfresh q h1 j (by omega)
      · simp only [List.mem_singleton] at h1
        subst h1
        intro he
        have h2 := tagName_injective he
        omega
    have hrec := ih (i + 1) (acc ++ [(tagName i, ind.fitness.values)]) hfresh2
    unfold dumpResultsGo
    rw [hins]
    obtain ⟨hl, hm⟩ := hrec
    constructor
    · rw [hl]
      simp only [List.length_append, List.length_cons, List.length_nil]
      omega
    · rw [hm]
      simp only [List.length_cons]
      have hrange : List.range' i (rest.length + 1)
          = i :: List.range' (i + 1) rest.length := List.range'_succ i rest.length 1
      rw [hrange]
      simp

/-- The manifest of `dump_population` holds one entry per individual. -/
theorem dump_population_length (population : List Individual) (cfg : Cfg)
    (subdir : Option String) :
    (dump_population population cfg subdir).results.length
      = population.length := by
  unfold dump_population
  cases subdir with
  | none =>
    have h := (dumpResultsGo_spec cfg.output.path population 0 [] (by simp)).1
    simpa using h
  | some d =>
    have h := (dumpResultsGo_spec (cfg.output.path ++ "/" ++ d) population 0 []
      (by simp)).1
    simpa using h

/-- The manifest keys of `dump_population` are the index tags, hence
pairwise distinct. -/
theorem dump_population_keys (population : List Individual) (cfg : Cfg)
    (subdir : Option String) :
    (dump_population population cfg subdir).results.map Prod.fst
        = (List.range' 0 population.length).map tagName ∧
      ((dump_population population cfg subdir).results.map Prod.fst).Nodup := by
  have hkeys : (dump_population population cfg subdir).results.map Prod.fst
      = (List.range' 0 population.length).map tagName := by
    unfold dump_population
    cases subdir with
    | none =>
      have h := (dumpResultsGo_spec cfg.output.path population 0 [] (by simp)).2
      simpa using h
    | some d =>
      have h := (dumpResultsGo_spec (cfg.output.path ++ "/" ++ d) population 0 []
        (by simp)).2
      simpa using h
  refine ⟨hkeys, ?_⟩
  rw [hkeys]
  exact (List.nodup_range' 0 population.length).map tagName_injective

/-! ### Run-level helper lemmas -/

/-- A run whose generations `1..ngen` all succeed returns the final
population with the full logbook. -/
theorem ea_result_complete {p : Params} {hof0 : Option (List Individual)}
    {pop0 : List Individual} {s : EAState}
    (hrun : runTo p hof0 pop0 p.ngen = .ok s) :
    (ea_mu_plus_lambda pop0 p.tb p.mu p.lambda_ p.cxpb p.mutpb p.ngen p.cfg
        hof0 p.env).result = .returned s.pop s.log := by
  obtain ⟨s0, hinit, hiter⟩ := runTo_split hrun
  obtain ⟨hp_, h2, h3, h4⟩ := runTo_inv hrun
  rw [ea_eq p hof0 pop0, hinit]
  dsimp only
  rw [eaLoop_result_complete p hiter, hp_]

/-- A run whose first raise happens in the body of generation `k+1 ≤ ngen`
ends through the interruption handler. -/
theorem ea_result_interrupt {p : Params} {hof0 : Option (List Individual)}
    {pop0 : List Individual} {k : Nat} {s : EAState} {e : PyErr}
    (hrun : runTo p hof0 pop0 k = .ok s)
    (herr : stepGen p (k + 1) s = .error e)
    (hk : k + 1 ≤ p.ngen) :
    (ea_mu_plus_lambda pop0 p.tb p.mu p.lambda_ p.cxpb p.mutpb p.ngen p.cfg
        hof0 p.env).result =
      (if confirmYes p.env then .returned s.pop s.log
       else .exited "Ok, bye!") := by
  obtain ⟨s0, hinit, hiter⟩ := runTo_split hrun
  obtain ⟨hp_, h2, h3, h4⟩ := runTo_inv hrun
  rw [ea_eq p hof0 pop0, hinit]
  dsimp only
  have herr2 : stepGen p (1 + k) s = .error e := by
    rw [Nat.add_comm]
    exact herr
  rw [eaLoop_result_interrupt p (show k < p.ngen by omega) hiter herr2, hp_]

/-- The invalid and the valid individuals of a list partition it. -/
theorem filter_valid_partition (pop : List Individual) :
    (pop.filter (fun ind => !ind.fitness.valid)).length
      + (pop.filter (fun ind => ind.fitness.valid)).length = pop.length := by
  induction pop with
  | nil => rfl
  | cons a l ih =>
    by_cases hv : a.fitness.valid = true <;>
      simp [List.filter_cons, hv, ← ih] <;> omega

/-! ### Claim C1 -/

/-- C1: if the body of generation `k+1 ≤ ngen` raises and the user confirms
persisting, `ea_mu_plus_lambda` stops the loop and returns the fully
evaluated population snapshot as of the end of generation `k` together with
the logbook accumulated up to generation `k` — one record per generation
`0..k`, hence `k+1` records. -/
theorem C1_interrupt_returns_snapshot (p : Params)
    (hof0 : Option (List Individual)) (pop0 : List Individual) (k : Nat)
    (s : EAState) (e : PyErr)
    (hmem : ∀ pool k2 ind, ind ∈ p.tb.select pool k2 → ind ∈ pool)
    (hrun : runTo p hof0 pop0 k = .ok s)
    (herr : stepGen p (k + 1) s = .error e)
    (hk : k + 1 ≤ p.ngen)
    (hconf : confirmYes p.env = true) :
    (ea_mu_plus_lambda pop0 p.tb p.mu p.lambda_ p.cxpb p.mutpb p.ngen p.cfg
        hof0 p.env).result = .returned s.pop s.log ∧
    s.log.length = k + 1 ∧
    (∀ (j : Nat) (r : LogRecord), s.log[j]? = some r → r.gen = j) ∧
    (∀ ind ∈ s.pop, ind.fitness.valid = true) := by
  obtain ⟨hp_, h2, hlen, hget⟩ := runTo_inv hrun
  have hres := ea_result_interrupt hrun herr hk
  rw [hconf] at hres
  simp only [if_true] at hres
  exact ⟨hres, hlen, fun j r hr => (hget j r hr).1, runTo_valid hmem hrun⟩

def c1tb : Toolbox :=
  { varOr := fun g _ => .ok [⟨100 + g, ⟨false, []⟩⟩]
    evaluate := fun ind =>
      if ind.genome == 102 then .error (.raised "RuntimeError")
      else .ok [PyFloat.ofNat ind.genome]
    select := fun pool k => pool.take k
    hofUpdate := fun h new => h ++ new }

def c1cfg : Cfg := ⟨⟨"out", "run", 0⟩, [⟨"obj", "mod"⟩]⟩

def c1env : Env := ⟨⟨1, 1⟩, fun _ => ⟨1, 1⟩, fun _ => ⟨1, 1⟩, fun _ => false, "y"⟩

def c1p : Params := ⟨c1tb, 1, 1, ⟨1, 2⟩, ⟨3, 10⟩, 3, c1cfg, c1env⟩

def c1pop : List Individual := [⟨7, ⟨false, []⟩⟩]

def c1s : EAState := (runTo c1p (some []) c1pop 1).toOption.getD default

theorem C1_interrupt_returns_snapshot_witness :
    (ea_mu_plus_lambda c1pop c1tb 1 1 ⟨1, 2⟩ ⟨3, 10⟩ 3 c1cfg (some [])
        c1env).result = .returned c1s.pop c1s.log ∧
    c1s.log.length = 2 := by
  have h := C1_interrupt_returns_snapshot c1p (some []) c1pop 1 c1s
    (.raised "RuntimeError")
    (fun pool k2 ind hmem => List.mem_of_mem_take hmem)
    (by decide) (by decide) (by decide) (by decide)
  exact ⟨h.1, h.2.1⟩

/-! ### Claim C2 -/

/-- C2: with an initial population of size `mu` and a `select` operation
returning exactly the requested number of individuals, the population has
size exactly `mu` after every completed generation `1..ngen`, and an
uninterrupted run returns a final population of size exactly `mu`. -/
theorem C2_population_size (p : Params) (hof0 : Option (List Individual))
    (pop0 : List Individual)
    (hsel : ∀ pool k2, (p.tb.select pool k2).length = k2)
    (hpop : pop0.length = p.mu) :
    (∀ (g : Nat) (s : EAState), 1 ≤ g → g ≤ p.ngen →
      runTo p hof0 pop0 g = .ok s → s.pop.length = p.mu) ∧
    (∀ s : EAState, runTo p hof0 pop0 p.ngen = .ok s →
      (ea_mu_plus_lambda pop0 p.tb p.mu p.lambda_ p.cxpb p.mutpb p.ngen p.cfg
          hof0 p.env).result = .returned s.pop s.log ∧
      s.pop.length = p.mu) := by
  constructor
  · intro g s hg1 hg2 hrun
    exact runTo_size hsel hpop hrun
  · intro s hrun
    exact ⟨ea_result_complete hrun, runTo_size hsel hpop hrun⟩

def c2tb : Toolbox :=
  { varOr := fun g _ => .ok [⟨100 + g, ⟨false, []⟩⟩]
    evaluate := fun ind => .ok [PyFloat.ofNat ind.genome]
    select := fun pool k => List.replicate k ⟨1, ⟨true, [PyFloat.ofNat 1]⟩⟩
    hofUpdate := fun h new => h ++ new }

def c2p : Params := ⟨c2tb, 1, 1, ⟨1, 2⟩, ⟨3, 10⟩, 2, c1cfg, c1env⟩

def c2s : EAState := (runTo c2p (some []) c1pop 2).toOption.getD default

theorem C2_population_size_witness :
    (ea_mu_plus_lambda c1pop c2tb 1 1 ⟨1, 2⟩ ⟨3, 10⟩ 2 c1cfg (some [])
        c1env).result = .returned c2s.pop c2s.log ∧
    c2s.pop.length = 1 := by
  have h := C2_population_size c2p (some []) c1pop
    (fun pool k2 => List.length_replicate k2 _) (by decide)
  exact h.2 c2s (by decide)

/-! ### Claim C9 -/

/-- C9: if the user declines to persist after an interruption, the run ends
with the distinct `sys.exit('Ok, bye!')` outcome: no population/logbook pair
is returned and the original exception is not re-raised. -/
theorem C9_decline_exits (p : Params) (hof0 : Option (List Individual))
    (pop0 : List Individual) (k : Nat) (s : EAState) (e : PyErr)
    (hrun : runTo p hof0 pop0 k = .ok s)
    (herr : stepGen p (k + 1) s = .error e)
    (hk : k + 1 ≤ p.ngen)
    (hconf : confirmYes p.env = false) :
    (ea_mu_plus_lambda pop0 p.tb p.mu p.lambda_ p.cxpb p.mutpb p.ngen p.cfg
        hof0 p.env).result = .exited "Ok, bye!" ∧
    (∀ (pop : List Individual) (log : List LogRecord),
      (ea_mu_plus_lambda pop0 p.tb p.mu p.lambda_ p.cxpb p.mutpb p.ngen p.cfg
          hof0 p.env).result ≠ .returned pop log) ∧
    (∀ e2 : PyErr,
      (ea_mu_plus_lambda pop0 p.tb p.mu p.lambda_ p.cxpb p.mutpb p.ngen p.cfg
          hof0 p.env).result ≠ .crashed e2) := by
  have hres := ea_result_interrupt hrun herr hk
  rw [hconf] at hres
  simp only [Bool.false_eq_true, if_false] at hres
  refine ⟨hres, ?_, ?_⟩
  · intro pop log
    rw [hres]
    simp
  · intro e2
    rw [hres]
    simp

def c9env : Env := ⟨⟨1, 1⟩, fun _ => ⟨1, 1⟩, fun _ => ⟨1, 1⟩, fun _ => false, "n"⟩

def c9p : Params := ⟨c1tb, 1, 1, ⟨1, 2⟩, ⟨3, 10⟩, 3, c1cfg, c9env⟩

def c9s : EAState := (runTo c9p (some []) c1pop 1).toOption.getD default

theorem C9_decline_exits_witness :
    (ea_mu_plus_lambda c1pop c1tb 1 1 ⟨1, 2⟩ ⟨3, 10⟩ 3 c1cfg (some [])
        c9env).result = .exited "Ok, bye!" := by
  have h := C9_decline_exits c9p (some []) c1pop 1 c9s (.raised "RuntimeError")
    (by decide) (by decide) (by decide) (by decide)
  exact h.1

/-! ### Claim C3 -/

def c3tb : Toolbox :=
  { varOr := fun _ _ => .error (.raised "AssertionError")
    evaluate := fun ind => .ok [PyFloat.ofNat ind.genome]
    select := fun pool k => pool.take k
    hofUpdate := fun h new => h ++ new }

def c3p : Params := ⟨c3tb, 1, 1, ⟨3, 5⟩, ⟨3, 5⟩, 2, c1cfg, c1env⟩

def c3s : EAState := (runTo c3p none c1pop 0).toOption.getD default

/-- C3: `ea_mu_plus_lambda` performs no configuration validation before the
generational loop.  With `cxpb + mutpb = 6/5 > 1` the driver still evaluates
generation 0 and records its statistics (the returned logbook holds the
generation-0 record), and the invalid probabilities only surface as the
exception DEAP's `varOr` raises inside the loop body of generation 1, which
the mid-loop interruption handler consumes (here answered with `y`). -/
theorem C3_no_validation_before_loop :
    (PyFloat.add ⟨3, 5⟩ ⟨3, 5⟩).toRat > 1 ∧
    (ea_mu_plus_lambda c1pop c3tb 1 1 ⟨3, 5⟩ ⟨3, 5⟩ 2 c1cfg none c1env).result
      = .returned c3s.pop c3s.log ∧
    c3s.log.length = 1 := by
  refine ⟨?_, by decide, by decide⟩
  norm_num [PyFloat.add, PyFloat.toRat]

/-! ### Claim C4 -/

def c4env : Env :=
  ⟨⟨0, 1⟩, fun _ => ⟨1, 1⟩, fun _ => ⟨1, 1⟩, fun _ => false, "y"⟩

/-- C4: the throughput computation has no guard against a zero elapsed
time.  With a measured generation-0 elapsed time of zero and one evaluated
individual, `speed = nevals / (t1 - t0)` raises `ZeroDivisionError`, which
is outside the loop's `try` and crashes the run instead of recording an
instantaneous upper-bound speed. -/
theorem C4_zero_elapsed_divides :
    c4env.initDur.toRat = 0 ∧
    (ea_mu_plus_lambda c1pop c2tb 1 1 ⟨1, 2⟩ ⟨3, 10⟩ 2 c1cfg none
        c4env).result = .crashed .zeroDivision := by
  refine ⟨?_, by decide⟩
  norm_num [c4env, PyFloat.toRat]

/-! ### Claim C5 -/

/-- C5: in an uninterrupted run the record of generation `g` carries the
progress value `100 * (g+1) / (ngen+1)` percent; these values strictly
increase with the generation and reach exactly 100 at generation `ngen`. -/
theorem C5_progress (p : Params) (hof0 : Option (List Individual))
    (pop0 : List Individual) (s : EAState)
    (hrun : runTo p hof0 pop0 p.ngen = .ok s) :
    (∀ g : Nat, g ≤ p.ngen → (s.log[g]?).map (fun r => r.progress.toRat)
        = some (100 * ((g : ℚ) + 1) / ((p.ngen : ℚ) + 1))) ∧
    (∀ (g1 g2 : Nat) (r1 r2 : LogRecord), g1 < g2 → g2 ≤ p.ngen →
      s.log[g1]? = some r1 → s.log[g2]? = some r2 →
      r1.progress.toRat < r2.progress.toRat) ∧
    ((s.log[p.ngen]?).map (fun r => r.progress.toRat) = some 100) := by
  obtain ⟨hp_, hh, hlen, hget⟩ := runTo_inv hrun
  have hpos : (0 : ℚ) < (p.ngen : ℚ) + 1 := by positivity
  refine ⟨?_, ?_, ?_⟩
  · intro g hg
    have hlt : g < s.log.length := by omega
    have h2 := hget g s.log[g] (List.getElem?_eq_getElem hlt)
    rw [List.getElem?_eq_getElem hlt, Option.map_some', h2.2]
  · intro g1 g2 r1 r2 h12 hg2 hr1 hr2
    rw [(hget g1 r1 hr1).2, (hget g2 r2 hr2).2]
    rw [div_lt_div_iff₀ hpos hpos]
    have hlt : (g1 : ℚ) < (g2 : ℚ) := by exact_mod_cast h12
    nlinarith [hpos, hlt]
  · have hlt : p.ngen < s.log.length := by omega
    have h2 := hget p.ngen s.log[p.ngen] (List.getElem?_eq_getElem hlt)
    rw [List.getElem?_eq_getElem hlt, Option.map_some', h2.2]
    rw [mul_div_assoc, div_self (ne_of_gt hpos), mul_one]

def c5p : Params := ⟨c2tb, 1, 1, ⟨1, 2⟩, ⟨3, 10⟩, 3, c1cfg, c1env⟩

def c5s : EAState := (runTo c5p (some []) c1pop 3).toOption.getD default

theorem C5_progress_witness :
    ((c5s.log[1]?).map (fun r => r.progress.toRat)
      = some (100 * (((1 : Nat) : ℚ) + 1) / (((3 : Nat) : ℚ) + 1))) ∧
    ((c5s.log[3]?).map (fun r => r.progress.toRat) = some 100) := by
  have h := C5_progress c5p (some []) c1pop c5s (by decide)
  exact ⟨h.1 1 (by decide), h.2.2⟩

/-! ### Claim C6 -/

/-- C6: the `nevals` value recorded at generation `k+1` is exactly the
number of offspring whose fitness is invalid before the evaluation step of
that generation; offspring whose fitness was inherited as valid by
reproduction are never counted (the invalid and valid offspring partition
the brood). -/
theorem C6_nevals (p : Params) (hof0 : Option (List Individual))
    (pop0 : List Individual) (k : Nat) (s s2 : EAState)
    (off : List Individual)
    (hrun : runTo p hof0 pop0 k = .ok s)
    (hrun2 : runTo p hof0 pop0 (k + 1) = .ok s2)
    (hoff : p.tb.varOr (k + 1) s.pop = .ok off) :
    ((s2.log[k + 1]?).map LogRecord.nevals = some (countInvalid off)) ∧
    countInvalid off = (off.filter (fun ind => !ind.fitness.valid)).length ∧
    countInvalid off
      + (off.filter (fun ind => ind.fitness.valid)).length = off.length := by
  obtain ⟨s1, hs1, hstep⟩ := runTo_succ hrun2
  rw [hrun] at hs1
  injection hs1 with hss
  subst hss
  obtain ⟨d, hsg⟩ := stepSt_ok hstep
  obtain ⟨t0, hbody, ht, hd⟩ := stepGen_ok hsg
  obtain ⟨off2, off3, evS, sp2, etaQ, hvar, hev2, hq1, hq2, hq3, ht0⟩ :=
    genBody_ok hbody
  rw [hoff] at hvar
  injection hvar with hoo
  subst hoo
  obtain ⟨hp_, hh, hlen, hget⟩ := runTo_inv hrun
  subst ht
  subst ht0
  refine ⟨?_, rfl, filter_valid_partition off⟩
  dsimp only
  rw [List.getElem?_append_right (by omega)]
  have hz : k + 1 - s.log.length = 0 := by omega
  rw [hz]
  simp only [List.getElem?_cons_zero, Option.map_some']

def c6s0 : EAState := (runTo c2p (some []) c1pop 0).toOption.getD default

def c6s1 : EAState := (runTo c2p (some []) c1pop 1).toOption.getD default

theorem C6_nevals_witness :
    ((c6s1.log[1]?).map LogRecord.nevals
      = some (countInvalid [⟨101, ⟨false, []⟩⟩])) ∧
    countInvalid [⟨101, ⟨false, []⟩⟩]
      + (([⟨101, ⟨false, []⟩⟩] : List Individual).filter
          (fun ind => ind.fitness.valid)).length = 1 := by
  have h := C6_nevals c2p (some []) c1pop 0 c6s0 c6s1 [⟨101, ⟨false, []⟩⟩]
    (by decide) (by decide) (by decide)
  exact ⟨h.1, h.2.2⟩

/-! ### Claim C7 -/

/-- C7: a raise inside a periodic `dump_population` call is caught by the
checkpoint block and only logged: compared with the same run in which every
checkpoint write succeeds (`noFail`), the returned result (population and
logbook) and the schedule of dump calls are identical, and the written
checkpoints are exactly those whose write did not fail — the loop is never
aborted and later generations and checkpoints proceed normally. -/
theorem C7_checkpoint_failure_harmless (p : Params)
    (hof0 : Option (List Individual)) (pop0 : List Individual) :
    (ea_mu_plus_lambda pop0 p.tb p.mu p.lambda_ p.cxpb p.mutpb p.ngen p.cfg
        hof0 p.env).result
      = (ea_mu_plus_lambda pop0 (noFail p).tb (noFail p).mu (noFail p).lambda_
          (noFail p).cxpb (noFail p).mutpb (noFail p).ngen (noFail p).cfg
          hof0 (noFail p).env).result ∧
    (ea_mu_plus_lambda pop0 p.tb p.mu p.lambda_ p.cxpb p.mutpb p.ngen p.cfg
        hof0 p.env).attempts
      = (ea_mu_plus_lambda pop0 (noFail p).tb (noFail p).mu (noFail p).lambda_
          (noFail p).cxpb (noFail p).mutpb (noFail p).ngen (noFail p).cfg
          hof0 (noFail p).env).attempts ∧
    (ea_mu_plus_lambda pop0 p.tb p.mu p.lambda_ p.cxpb p.mutpb p.ngen p.cfg
        hof0 p.env).checkpoints
      = ((ea_mu_plus_lambda pop0 (noFail p).tb (noFail p).mu (noFail p).lambda_
          (noFail p).cxpb (noFail p).mutpb (noFail p).ngen (noFail p).cfg
          hof0 (noFail p).env).checkpoints).filter
            (fun pr => !(p.env.dumpFails pr.1)) := by
  cases hinit : initPhase p hof0 pop0 with
  | error e =>
    rw [ea_eq p hof0 pop0, ea_eq (noFail p) hof0 pop0, initPhase_noFail, hinit]
    exact ⟨rfl, rfl, rfl⟩
  | ok s0 =>
    rw [ea_eq p hof0 pop0, ea_eq (noFail p) hof0 pop0, initPhase_noFail, hinit]
    dsimp only
    have h := eaLoop_noFail p p.ngen 1 s0 [] []
    simpa using h

/-! ### Claim C8 -/

/-- C8: dumping a population of `n` individuals produces a manifest whose
filename-to-fitness mapping has exactly `n` entries whose keys (artifact
basenames) are pairwise distinct. -/
theorem C8_manifest_entries (population : List Individual) (cfg : Cfg)
    (subdir : Option String) :
    (dump_population population cfg subdir).results.length
        = population.length ∧
    ((dump_population population cfg subdir).results.map Prod.fst).Nodup :=
  ⟨dump_population_length population cfg subdir,
   (dump_population_keys population cfg subdir).2⟩

/-! ### Claim C10 -/

/-- C10: in an uninterrupted run, a periodic `dump_population` call is made
at generation `g` exactly when a hall of fame was supplied, the cadence
`cfg.output.check_every` is nonzero, `g` is a multiple of the cadence, and
`1 ≤ g ≤ ngen`; in particular generation 0 is never checkpointed and a run
with `ngen` below the cadence makes no periodic dump call at all. -/
theorem C10_checkpoint_iff (p : Params) (hof0 : Option (List Individual))
    (pop0 : List Individual) (s : EAState)
    (hrun : runTo p hof0 pop0 p.ngen = .ok s) :
    (∀ g : Nat,
      g ∈ (ea_mu_plus_lambda pop0 p.tb p.mu p.lambda_ p.cxpb p.mutpb p.ngen
          p.cfg hof0 p.env).attempts
        ↔ (hof0.isSome = true ∧ p.cfg.output.check_every ≠ 0
            ∧ g % p.cfg.output.check_every = 0 ∧ 1 ≤ g ∧ g ≤ p.ngen)) ∧
    0 ∉ (ea_mu_plus_lambda pop0 p.tb p.mu p.lambda_ p.cxpb p.mutpb p.ngen
        p.cfg hof0 p.env).attempts ∧
    (p.ngen < p.cfg.output.check_every →
      (ea_mu_plus_lambda pop0 p.tb p.mu p.lambda_ p.cxpb p.mutpb p.ngen
        p.cfg hof0 p.env).attempts = []) := by
  obtain ⟨s0, hinit, hiter⟩ := runTo_split hrun
  have h0 : runTo p hof0 pop0 0 = .ok s0 := hinit
  have hb : s0.hof.isSome = hof0.isSome := (runTo_inv h0).2.1
  have hatt : (ea_mu_plus_lambda pop0 p.tb p.mu p.lambda_ p.cxpb p.mutpb
      p.ngen p.cfg hof0 p.env).attempts
      = (List.range' 1 p.ngen).filter
          (fun j => hof0.isSome && (p.cfg.output.check_every != 0)
            && (j % p.cfg.output.check_every == 0)) := by
    rw [ea_eq p hof0 pop0, hinit]
    dsimp only
    rw [eaLoop_attempts_complete p hof0.isSome hb hiter]
    rw [List.nil_append]
  refine ⟨?_, ?_, ?_⟩
  · intro g
    rw [hatt]
    constructor
    · intro hg
      obtain ⟨hmem, hcond⟩ := List.mem_filter.mp hg
      obtain ⟨hge, hlt⟩ := List.mem_range'_1.mp hmem
      simp only [Bool.and_eq_true, bne_iff_ne, ne_eq, beq_iff_eq] at hcond
      obtain ⟨⟨hh1, hh2⟩, hh3⟩ := hcond
      exact ⟨hh1, hh2, hh3, hge, by omega⟩
    · rintro ⟨h1, h2, h3, h4, h5⟩
      refine List.mem_filter.mpr
        ⟨List.mem_range'_1.mpr ⟨h4, by omega⟩, ?_⟩
      simp only [Bool.and_eq_true, bne_iff_ne, ne_eq, beq_iff_eq]
      exact ⟨⟨h1, h2⟩, h3⟩
  · intro h0mem
    rw [hatt] at h0mem
    obtain ⟨hmem, _⟩ := List.mem_filter.mp h0mem
    obtain ⟨hge, _⟩ := List.mem_range'_1.mp hmem
    omega
  · intro hlt
    rw [hatt]
    refine List.filter_eq_nil_iff.mpr ?_
    intro a ha
    obtain ⟨hge, hlt2⟩ := List.mem_range'_1.mp ha
    intro hcond
    simp only [Bool.and_eq_true, bne_iff_ne, ne_eq, beq_iff_eq] at hcond
    obtain ⟨⟨hh1, hh2⟩, hh3⟩ := hcond
    have hma : a % p.cfg.output.check_every = a :=
      Nat.mod_eq_of_lt (by omega)
    omega

def c10cfg : Cfg := ⟨⟨"out", "run", 2⟩, [⟨"obj", "mod"⟩]⟩

def c10p : Params := ⟨c2tb, 1, 1, ⟨1, 2⟩, ⟨3, 10⟩, 4, c10cfg, c1env⟩

def c10s : EAState := (runTo c10p (some []) c1pop 4).toOption.getD default

theorem C10_checkpoint_iff_witness :
    2 ∈ (ea_mu_plus_lambda c1pop c2tb 1 1 ⟨1, 2⟩ ⟨3, 10⟩ 4 c10cfg (some [])
        c1env).attempts ∧
    0 ∉ (ea_mu_plus_lambda c1pop c2tb 1 1 ⟨1, 2⟩ ⟨3, 10⟩ 4 c10cfg (some [])
        c1env).attempts := by
  have h := C10_checkpoint_iff c10p (some []) c1pop c10s (by decide)
  exact ⟨(h.1 2).mpr ⟨rfl, by decide, by decide, by decide, by decide⟩,
    h.2.1⟩

def c7cfg : Cfg := ⟨⟨"out", "run", 1⟩, [⟨"obj", "mod"⟩]⟩

def c7env : Env :=
  ⟨⟨1, 1⟩, fun _ => ⟨1, 1⟩, fun _ => ⟨1, 1⟩, fun g => g == 1, "y"⟩

def c7p : Params := ⟨c2tb, 1, 1, ⟨1, 2⟩, ⟨3, 10⟩, 2, c7cfg, c7env⟩

theorem C7_checkpoint_failure_harmless_witness :
    (ea_mu_plus_lambda c1pop c7p.tb c7p.mu c7p.lambda_ c7p.cxpb c7p.mutpb
        c7p.ngen c7p.cfg (some []) c7p.env).result
      = (ea_mu_plus_lambda c1pop (noFail c7p).tb (noFail c7p).mu
          (noFail c7p).lambda_ (noFail c7p).cxpb (noFail c7p).mutpb
          (noFail c7p).ngen (noFail c7p).cfg (some [])
          (noFail c7p).env).result ∧
    (ea_mu_plus_lambda c1pop c7p.tb c7p.mu c7p.lambda_ c7p.cxpb c7p.mutpb
        c7p.ngen c7p.cfg (some []) c7p.env).attempts
      = (ea_mu_plus_lambda c1pop (noFail c7p).tb (noFail c7p).mu
          (noFail c7p).lambda_ (noFail c7p).cxpb (noFail c7p).mutpb
          (noFail c7p).ngen (noFail c7p).cfg (some [])
          (noFail c7p).env).attempts ∧
    (ea_mu_plus_lambda c1pop c7p.tb c7p.mu c7p.lambda_ c7p.cxpb c7p.mutpb
        c7p.ngen c7p.cfg (some []) c7p.env).checkpoints
      = ((ea_mu_plus_lambda c1pop (noFail c7p).tb (noFail c7p).mu
          (noFail c7p).lambda_ (noFail c7p).cxpb (noFail c7p).mutpb
          (noFail c7p).ngen (noFail c7p).cfg (some [])
          (noFail c7p).env).checkpoints).filter
            (fun pr => !(c7p.env.dumpFails pr.1)) :=
  C7_checkpoint_failure_harmless c7p (some []) c1pop

theorem C8_manifest_entries_witness :
    (dump_population [⟨1, ⟨true, [PyFloat.ofNat 1]⟩⟩,
        ⟨2, ⟨true, [PyFloat.ofNat 2]⟩⟩] c1cfg (some "check2")).results.length
      = 2 ∧
    ((dump_population [⟨1, ⟨true, [PyFloat.ofNat 1]⟩⟩,
        ⟨2, ⟨true, [PyFloat.ofNat 2]⟩⟩] c1cfg
          (some "check2")).results.map Prod.fst).Nodup :=
  C8_manifest_entries [⟨1, ⟨true, [PyFloat.ofNat 1]⟩⟩,
    ⟨2, ⟨true, [PyFloat.ofNat 2]⟩⟩] c1cfg (some "check2")
